import Mathlib

/-!
# Verification of the deploy-engine Docker service

A shallow embedding of the Docker deployment core of this repository
(`packages/deploy-engine/src/services/docker/`): the Dockerfile sanitizer and
builder (`image-builder.ts`), the container naming conventions and deployment
orchestrator (`index.ts`, `types.ts`), the health-check poll loop, the image
pruning policy, the running-container listing (`container.ts`) and the
process-wide log-stream registry.

Strings are modelled at the character-list level (`List Char`); the JavaScript
string operations the source uses (`trim`, `toUpperCase`, `split`, `startsWith`,
`includes`, a first-match regex replace) are embedded as executable functions
on `List Char`.  External effects (the Docker CLI, the filesystem, HTTP
responses) are oracles passed in as explicit parameters, and the side effects
the source performs are returned as explicit data (event lists, registries,
filesystem records).
-/

namespace DeployEngine

/-! ## JavaScript string primitives on character lists -/

/-- Whitespace as the embedded `trim`/`split(/\s+/)` see it (space, tab, CR, LF). -/
def isWs (c : Char) : Bool := c.isWhitespace

/-- JS `String.prototype.toUpperCase` (ASCII range, which is all the sanitizer
compares against). -/
def upperL (l : List Char) : List Char := l.map Char.toUpper

/-- Drop trailing whitespace. -/
def dropTrailWs (l : List Char) : List Char := (l.reverse.dropWhile isWs).reverse

/-- JS `String.prototype.trim`. -/
def trimL (l : List Char) : List Char := dropTrailWs (l.dropWhile isWs)

/-- JS `String.prototype.startsWith`, on character lists. -/
def prefOf : List Char → List Char → Bool
  | [], _ => true
  | _ :: _, [] => false
  | a :: as, b :: bs => a == b && prefOf as bs

/-- JS `String.prototype.includes`, on character lists. -/
def hasSub (pat : List Char) : List Char → Bool
  | [] => prefOf pat []
  | c :: cs => prefOf pat (c :: cs) || hasSub pat cs

/-- JS `content.split('\n')` on character lists: every newline separates,
empty pieces are kept. -/
def splitNl : List Char → List (List Char)
  | [] => [[]]
  | c :: cs =>
    if c = '\n' then [] :: splitNl cs
    else
      match splitNl cs with
      | t :: ts => (c :: t) :: ts
      | [] => [[c]]

/-- JS `lines.join('\n')` on character lists. -/
def joinNl : List (List Char) → List Char
  | [] => []
  | [l] => l
  | l :: ls => l ++ '\n' :: joinNl ls

/-- JS `Array.prototype.splice(i, 0, x)`: insert `x` at index `i`. -/
def insertAt (i : Nat) (x : α) : List α → List α
  | [] => [x]
  | a :: as =>
    match i with
    | 0 => x :: a :: as
    | i + 1 => a :: insertAt i x as

/-! ## The Dockerfile sanitizer (`image-builder.ts`, `sanitizeDockerfile`) -/

/-- The regex `/PORT\s*=?\s*\d+/i` matched at the head of the list: `some rest`
is the remainder after the match (`PORT`, optional whitespace, an optional `=`,
optional whitespace, one or more digits, all greedy — equivalent to the regex
since the three character classes are disjoint). -/
def portMatchAt : List Char → Option (List Char)
  | c0 :: c1 :: c2 :: c3 :: rest =>
    if c0.toUpper = 'P' ∧ c1.toUpper = 'O' ∧ c2.toUpper = 'R' ∧ c3.toUpper = 'T' then
      let r1 := rest.dropWhile isWs
      let r2 := match r1 with
        | '=' :: t => t
        | _ => r1
      let r3 := r2.dropWhile isWs
      if (r3.takeWhile Char.isDigit).isEmpty then none
      else some (r3.dropWhile Char.isDigit)
    else none
  | _ => none

/-- JS `line.replace(/PORT\s*=?\s*\d+/i, "PORT=" + internalPort)`: replace the
leftmost match, or return the line unchanged when there is none. -/
def replacePortL (p : Nat) : List Char → List Char
  | [] => []
  | c :: cs =>
    match portMatchAt (c :: cs) with
    | some rest => "PORT=".data ++ (toString p).data ++ rest
    | none => c :: replacePortL p cs

/-- `trimmedLine.startsWith('EXPOSE ')` on the trimmed upper-cased line: the
sanitizer's classification of a port-exposing instruction. -/
def isExposeLine (l : List Char) : Bool := prefOf "EXPOSE ".data (upperL (trimL l))

/-- `trimmedLine.startsWith('ENV ') && trimmedLine.includes('PORT')`: the
sanitizer's classification of a port-environment instruction. -/
def isEnvPortLine (l : List Char) : Bool :=
  prefOf "ENV ".data (upperL (trimL l)) && hasSub "PORT".data (upperL (trimL l))

/-- The sanitizer's dangerous-instruction test: `USER ROOT` prefix, or
`--PRIVILEGED` or `DOCKER.SOCK` anywhere in the trimmed upper-cased line. -/
def isDangerLine (l : List Char) : Bool :=
  prefOf "USER ROOT".data (upperL (trimL l)) ||
    hasSub "--PRIVILEGED".data (upperL (trimL l)) ||
      hasSub "DOCKER.SOCK".data (upperL (trimL l))

/-- `` `EXPOSE ${internalPort}` ``: the rewritten/appended EXPOSE line. -/
def exposeLineFor (p : Nat) : List Char := "EXPOSE ".data ++ (toString p).data

/-- `` `ENV PORT=${internalPort}` ``: the appended ENV line. -/
def envPortLineFor (p : Nat) : List Char := "ENV PORT=".data ++ (toString p).data

/-- `trim().toUpperCase().startsWith('CMD') || …startsWith('ENTRYPOINT')`: where
the missing ENV line is inserted. -/
def isCmdLine (l : List Char) : Bool :=
  prefOf "CMD".data (upperL (trimL l)) || prefOf "ENTRYPOINT".data (upperL (trimL l))

/-- One pass of the sanitizer's `lines.map` callback, in the source's branch
order: EXPOSE rewrite, then ENV PORT rewrite, then dangerous-instruction
comment-out, else the line unchanged. -/
def sanitizeLine (p : Nat) (l : List Char) : List Char :=
  if isExposeLine l then exposeLineFor p
  else if isEnvPortLine l then replacePortL p l
  else if isDangerLine l then "# REMOVED FOR SECURITY: ".data ++ l
  else l

/-- The sanitizer's `lines.map` pass. -/
def sanitizeMapped (p : Nat) (lines : List (List Char)) : List (List Char) :=
  lines.map (sanitizeLine p)

/-- The mapped lines with `` `EXPOSE ${p}` `` pushed at the end when the map
pass saw no EXPOSE line (the source's `hasExpose` flag, set in the map
callback's first branch, equals `lines.any isExposeLine`). -/
def sanitizeWithExpose (p : Nat) (lines : List (List Char)) : List (List Char) :=
  if lines.any isExposeLine then sanitizeMapped p lines
  else sanitizeMapped p lines ++ [exposeLineFor p]

/-- `sanitizeDockerfile` on the split lines.  The source's `hasPortEnv` flag is
set in the map callback's second branch, i.e. only on lines that did not take
the EXPOSE branch first; when it stayed false, `` `ENV PORT=${p}` `` is
spliced in before the first CMD/ENTRYPOINT of the already-extended array (or
pushed at the end when there is none). -/
def sanitizeLines (p : Nat) (lines : List (List Char)) : List (List Char) :=
  if lines.any fun l => !isExposeLine l && isEnvPortLine l then sanitizeWithExpose p lines
  else
    match (sanitizeWithExpose p lines).findIdx? isCmdLine with
    | some i => insertAt i (envPortLineFor p) (sanitizeWithExpose p lines)
    | none => sanitizeWithExpose p lines ++ [envPortLineFor p]

/-- `sanitizeDockerfile(content, internalPort)` as a string-to-string function:
split on newlines, sanitize the lines, join with newlines. -/
def sanitizeDockerfile (content : String) (internalPort : Nat) : String :=
  ⟨joinNl (sanitizeLines internalPort (splitNl content.data))⟩

/-! ## Naming conventions (`types.ts`) -/

/-- `` `thakur-${projectId.slice(0, 8)}` `` (JS `slice(0, 8)` is `take 8`). -/
def getContainerName (projectId : String) : String :=
  "thakur-" ++ projectId.take 8

/-- `` `thakur-deploy/${projectId.slice(0, 8)}:${buildId.slice(0, 8)}` ``. -/
def getImageName (projectId buildId : String) : String :=
  "thakur-deploy/" ++ projectId.take 8 ++ ":" ++ buildId.take 8

/-! ## Dockerfile templates (`image-builder.ts`, `getDockerfileContent`) -/

/-- The closed set of application types (`index.ts` `AppType` /
`image-builder.ts` `FrameworkType`). -/
inductive AppType
  | nextjs
  | vite
  | express
  | hono
  | elysia
deriving DecidableEq

/-- The static-site template: `nginx:alpine` serving on the fixed port 80. -/
def viteTemplate : String :=
  "FROM nginx:alpine\nCOPY dist/ /usr/share/nginx/html\nEXPOSE 80\nCMD [\"nginx\", \"-g\", \"daemon off;\"]"

/-- The CMD line: `` `CMD ["bun", "run", "${entryFile}"]` `` when an entry file
was detected, otherwise `CMD ["bun", "run", "start"]`. -/
def cmdFor : Option String → String
  | some entry => "CMD [\"bun\", \"run\", \"" ++ entry ++ "\"]"
  | none => "CMD [\"bun\", \"run\", \"start\"]"

/-- The two-stage bun template shared by the `nextjs` case and the backend
default case of `getDockerfileContent` (the two source branches return the
same text). -/
def bunTemplate (internalPort : Nat) (entryFile : Option String) : String :=
  "FROM oven/bun:1-alpine AS builder\nWORKDIR /app\nCOPY package.json ./\nRUN bun install\nCOPY . .\n\nFROM oven/bun:1-alpine\nWORKDIR /app\nCOPY --from=builder /app .\nENV NODE_ENV=production\nENV PORT="
    ++ toString internalPort ++ "\nEXPOSE " ++ toString internalPort ++ "\n" ++ cmdFor entryFile

/-- `getDockerfileContent(framework, internalPort, entryFile)`. -/
def getDockerfileContent (framework : AppType) (internalPort : Nat)
    (entryFile : Option String) : String :=
  match framework with
  | .vite => viteTemplate
  | .nextjs => bunTemplate internalPort entryFile
  | _ => bunTemplate internalPort entryFile

/-! ## `buildImage` (`image-builder.ts`) -/

/-- The slice of the filesystem `buildImage` touches: whether `sourceDir`
exists and the content of `sourceDir/Dockerfile` when that file exists. -/
structure BuildFS where
  sourceDirExists : Bool
  dockerfile : Option String
deriving DecidableEq

/-- `BuildResult` (`types.ts`). -/
structure BuildResult where
  success : Bool
  imageName : String
  error : Option String
deriving DecidableEq

/-- What one `buildImage` call did: the final filesystem state, the returned
result, whether the sanitized recipe was written back, and whether the
builder synthesized the recipe itself (the source's `dockerfileGenerated`
flag — the source sets it but never reads it again). -/
structure BuildTrace where
  fs : BuildFS
  result : BuildResult
  wroteSanitized : Bool
  generated : Bool
deriving DecidableEq

/-- `buildImage(projectId, buildId, sourceDir, framework, internalPort, onLog)`.
Oracles stand for the environment: `hasStart` for `hasStartScript(sourceDir)`,
`entryFound` for `detectEntryFile(sourceDir)`, `buildExitCode`/`buildError`
for the streamed `docker build` result.  After the build the source deletes
`sourceDir/Dockerfile` whenever it exists (`existsSync` guard only — and at
that point it always exists, either user-supplied or just generated), so the
final filesystem always has `dockerfile := none`. -/
def buildImage (projectId buildId : String) (fs : BuildFS) (framework : AppType)
    (internalPort : Nat) (hasStart : Bool) (entryFound : Option String)
    (buildExitCode : Nat) (buildError : String) : BuildTrace :=
  let imageName := getImageName projectId buildId
  if fs.sourceDirExists = false then
    { fs := fs
      result := { success := false, imageName := imageName,
                  error := some "Source directory not found" }
      wroteSanitized := false
      generated := false }
  else
    let step : BuildFS × Bool × Bool :=
      match fs.dockerfile with
      | some original =>
        let sanitized := sanitizeDockerfile original internalPort
        if sanitized = original then (fs, false, false)
        else ({ fs with dockerfile := some sanitized }, true, false)
      | none =>
        let entryFile := if hasStart then none else entryFound
        ({ fs with dockerfile := some (getDockerfileContent framework internalPort entryFile) },
          false, true)
    let fs2 : BuildFS := { step.1 with dockerfile := none }
    if buildExitCode ≠ 0 then
      { fs := fs2
        result := { success := false, imageName := imageName, error := some buildError }
        wroteSanitized := step.2.1
        generated := step.2.2 }
    else
      { fs := fs2
        result := { success := true, imageName := imageName, error := none }
        wroteSanitized := step.2.1
        generated := step.2.2 }

/-! ## Health check (`index.ts`, `waitForHealthy`) -/

/-- One poll's outcome: `none` when the fetch throws (connection refused),
`some status` when an HTTP response arrives.  The source treats
`res.ok || res.status < 500` as healthy, which is equivalent to
`status < 500`. -/
def healthyResp : Option Nat → Bool
  | some status => status < 500
  | none => false

/-- The poll loop of `waitForHealthy`: at each iteration, if the elapsed time
is still below the timeout, poll once (the k-th poll) and return `true` on a
healthy response, otherwise sleep the fixed 500 ms interval and retry.  The
result also carries the elapsed time at return.  `fuel` bounds the recursion;
`waitForHealthy` supplies enough for the base case to be unreachable before
the timeout. -/
def whLoop (respond : Nat → Option Nat) (timeoutMs : Nat) :
    Nat → Nat → Nat → Bool × Nat
  | 0, _, elapsed => (false, elapsed)
  | fuel + 1, k, elapsed =>
    if elapsed < timeoutMs then
      if healthyResp (respond k) then (true, elapsed)
      else whLoop respond timeoutMs fuel (k + 1) (elapsed + 500)
    else (false, elapsed)

/-- `waitForHealthy(port, timeoutMs)` (source default 10000 ms; `deploy` passes
15000 ms): polls `http://localhost:port` every 500 ms until a response with
status below 500 arrives or the timeout elapses. -/
def waitForHealthy (respond : Nat → Option Nat) (timeoutMs : Nat) : Bool × Nat :=
  whLoop respond timeoutMs (timeoutMs / 500 + 1) 0 0

/-! ## The deployment orchestrator (`index.ts`, `DockerService.deploy`) -/

/-- `DEFAULT_CONTAINER_LIMITS` (`types.ts`). -/
def defaultMemoryLimit : String := "512m"

/-- `DEFAULT_CONTAINER_LIMITS.cpus`. -/
def defaultCpuLimit : String := "0.5"

/-- `ContainerConfig` (`types.ts`). -/
structure ContainerConfig where
  projectId : String
  buildId : String
  imageName : String
  containerName : String
  hostPort : Nat
  internalPort : Nat
  envVars : List (String × String)
  memoryLimit : String
  cpuLimit : String
  workDir : String
deriving DecidableEq

/-- The externally visible actions a deploy performs, in order. -/
inductive DockerEvent
  | ensureStopped (containerName : String)
  | runC (config : ContainerConfig)
  | getLogs (containerName : String) (tail : Nat)
  | stopAndRemove (containerName : String)
  | prune (projectId : String) (keep : Nat)
  | startStream (projectId buildId : String)
deriving DecidableEq

/-- The structured outcome `deploy` returns. -/
structure DeployOutcome where
  success : Bool
  containerId : Option String
  error : Option String
deriving DecidableEq

/-- `appType === 'vite' ? VITE_INTERNAL_PORT : DEFAULT_INTERNAL_PORT`
(80 for vite — nginx serves on 80 — and 3000 otherwise). -/
def internalPortFor (appType : AppType) : Nat :=
  match appType with
  | .vite => 80
  | _ => 3000

/-- `DockerService.deploy(projectId, buildId, sourceDir, hostPort, appType,
envVars)`.  Oracles: the filesystem slice and build oracles are passed through
to `buildImage`; `runOk`/`runErr`/`containerId` stand for `runContainer`'s
result; `respond` for the HTTP responses the health-check polls observe.  The
returned event list records the externally visible actions in order. -/
def deploy (projectId buildId : String) (fs : BuildFS) (sourceDir : String)
    (hostPort : Nat) (appType : AppType) (envVars : List (String × String))
    (hasStart : Bool) (entryFound : Option String)
    (buildExitCode : Nat) (buildError : String)
    (runOk : Bool) (runErr : String) (containerId : String)
    (respond : Nat → Option Nat) : DeployOutcome × List DockerEvent :=
  let containerName := getContainerName projectId
  let internalPort := internalPortFor appType
  let bt := buildImage projectId buildId fs appType internalPort hasStart entryFound
    buildExitCode buildError
  if bt.result.success = false then
    ({ success := false, containerId := none, error := bt.result.error },
      [DockerEvent.ensureStopped containerName])
  else
    let config : ContainerConfig :=
      { projectId := projectId
        buildId := buildId
        imageName := bt.result.imageName
        containerName := containerName
        hostPort := hostPort
        internalPort := internalPort
        envVars := envVars
        memoryLimit := defaultMemoryLimit
        cpuLimit := defaultCpuLimit
        workDir := sourceDir }
    if runOk = false then
      ({ success := false, containerId := none, error := some runErr },
        [DockerEvent.ensureStopped containerName, DockerEvent.runC config])
    else if (waitForHealthy respond 15000).1 = false then
      ({ success := false, containerId := none, error := some "Health check failed" },
        [DockerEvent.ensureStopped containerName, DockerEvent.runC config,
          DockerEvent.getLogs containerName 50, DockerEvent.stopAndRemove containerName])
    else
      ({ success := true, containerId := some containerId, error := none },
        [DockerEvent.ensureStopped containerName, DockerEvent.runC config,
          DockerEvent.prune projectId 3, DockerEvent.startStream projectId buildId])

/-! ## The log-stream registry (`index.ts`, `_logStreamers`) -/

/-- The process-wide registry state.  `streams` is the `Map` from project key
to the active handle (handles are numbered by a counter so cancellation can be
tracked); `cancelled` records every handle whose cleanup function has been
called; `overwriteViolation` is set if a store ever finds a previous handle
still present for the key — the source's replace-then-store protocol is
supposed to make that impossible. -/
structure Registry where
  streams : List (String × Nat)
  cancelled : List Nat
  next : Nat
  overwriteViolation : Bool
deriving DecidableEq

/-- `this._logStreamers.get(p)` on the association list. -/
def regFind : List (String × Nat) → String → Option Nat
  | [], _ => none
  | (q, h) :: rest, p => if q = p then some h else regFind rest p

/-- `this._logStreamers.delete(p)`. -/
def regRemove : List (String × Nat) → String → List (String × Nat)
  | [], _ => []
  | (q, h) :: rest, p => if q = p then regRemove rest p else (q, h) :: regRemove rest p

/-- `DockerService.stopLogStreaming(p)`: look up the handle, call its cleanup
and delete it; a missing handle is a no-op. -/
def stopLogStreaming (r : Registry) (p : String) : Registry :=
  match regFind r.streams p with
  | some h =>
    { r with cancelled := h :: r.cancelled, streams := regRemove r.streams p }
  | none => r

/-- `this._logStreamers.set(p, cleanup)` with a fresh handle, flagging a
violation if an old handle is still stored for `p`. -/
def regStore (r : Registry) (p : String) : Registry :=
  match regFind r.streams p with
  | some _ =>
    { r with
      streams := (p, r.next) :: regRemove r.streams p
      next := r.next + 1
      overwriteViolation := true }
  | none =>
    { r with streams := (p, r.next) :: r.streams, next := r.next + 1 }

/-- `DockerService.startLogStreaming(p, b)`: `stopLogStreaming(p)` first, then
store the new stream handle. -/
def startLogStreaming (r : Registry) (p : String) : Registry :=
  regStore (stopLogStreaming r p) p

/-- The operations of the public API that touch the registry. -/
inductive RegistryOp
  /-- `deploy`: on the all-stages-succeeded path it calls `startLogStreaming`;
  on every failure path it leaves the registry untouched. -/
  | deployOp (p : String) (succeeded : Bool)
  /-- `startLogStreaming` called directly. -/
  | startOp (p : String)
  /-- `stopLogStreaming`. -/
  | stopStreamOp (p : String)
  /-- `stop`: stops log streaming first, then tears the container down. -/
  | stopOp (p : String)
  /-- `cleanup`: stops log streaming first. -/
  | cleanupOp (p : String)
  /-- `recoverLogStreams`: `startLogStreaming` for every discovered project. -/
  | recoverOp (ps : List String)

/-- How each operation acts on the registry. -/
def applyRegOp (r : Registry) : RegistryOp → Registry
  | .deployOp p ok => if ok then startLogStreaming r p else r
  | .startOp p => startLogStreaming r p
  | .stopStreamOp p => stopLogStreaming r p
  | .stopOp p => stopLogStreaming r p
  | .cleanupOp p => stopLogStreaming r p
  | .recoverOp ps => ps.foldl startLogStreaming r

/-- The registry at process start: an empty `Map`. -/
def initRegistry : Registry :=
  { streams := [], cancelled := [], next := 0, overwriteViolation := false }

/-- Run a whole history of API calls against the registry. -/
def runRegOps (ops : List RegistryOp) : Registry :=
  ops.foldl applyRegOp initRegistry

/-- The registry's health invariant: no store ever found a resident handle
for its key (the replace-then-store protocol was respected), each project key
maps to at most one handle, handle numbers are distinct and below the
freshness counter (as is everything already cancelled), and no handle still
stored has had its cancellation function called. -/
def RegInv (r : Registry) : Prop :=
  r.overwriteViolation = false
  ∧ (r.streams.map Prod.fst).Nodup
  ∧ (r.streams.map Prod.snd).Nodup
  ∧ (∀ ph ∈ r.streams, ph.2 < r.next)
  ∧ (∀ h ∈ r.cancelled, h < r.next)
  ∧ ∀ ph ∈ r.streams, ph.2 ∉ r.cancelled

/-! ## Image pruning (`image-builder.ts`, `pruneProjectImages`) -/

/-- A captured Docker CLI result (`exec.ts` `execDocker`): exit code and
buffered stdout. -/
structure ExecResult where
  exitCode : Nat
  stdout : String
deriving DecidableEq

/-- The `--filter` argument `pruneProjectImages` passes to `docker images`:
only images tagged under the project's derived prefix are listed. -/
def pruneFilter (projectId : String) : String :=
  "reference=thakur-deploy/" ++ projectId.take 8 ++ ":*"

/-- JS `s.split(sep)` for a one-character separator, as a string function
(every occurrence separates, empty pieces kept — same shape as `splitNl`). -/
def splitCh (sep : Char) : List Char → List (List Char)
  | [] => [[]]
  | c :: cs =>
    if c = sep then [] :: splitCh sep cs
    else
      match splitCh sep cs with
      | t :: ts => (c :: t) :: ts
      | [] => [[c]]

/-- `s.split(sep)` lifted to strings. -/
def jsSplit (sep : Char) (s : String) : List String :=
  (splitCh sep s.data).map fun l => ⟨l⟩

/-- JS `parts.join(sep)`. -/
def joinWith (sep : String) : List String → String
  | [] => ""
  | [x] => x
  | x :: xs => x ++ sep ++ joinWith sep xs

/-- `const [name, ...dateParts] = line.split(' '); {name, date: dateParts.join(' ')}`. -/
def parseImageLine (line : String) : String × String :=
  match jsSplit ' ' line with
  | [] => ("", "")
  | name :: rest => (name, joinWith " " rest)

/-- Stable insertion into a list sorted descending by creation time (`dateVal`
abstracts `new Date(d).getTime()`). -/
def insertDesc (dateVal : String → Int) (x : String × String) :
    List (String × String) → List (String × String)
  | [] => [x]
  | y :: ys =>
    if dateVal y.2 ≤ dateVal x.2 then x :: y :: ys
    else y :: insertDesc dateVal x ys

/-- `images.sort((a, b) => dateVal(b.date) - dateVal(a.date))`: a stable sort
by creation time descending. -/
def sortDesc (dateVal : String → Int) : List (String × String) → List (String × String)
  | [] => []
  | x :: xs => insertDesc dateVal x (sortDesc dateVal xs)

/-- `pruneProjectImages(projectId, keepCount)`, returning the removal attempts
`(image name, removeImage outcome)` in order.  The source function returns
`void` whatever the individual `removeImage` outcomes are; `delOk` is the
oracle for those outcomes, and the attempted names do not depend on it. -/
def pruneProjectImages (dateVal : String → Int) (delOk : String → Bool)
    (res : ExecResult) (keepCount : Nat) : List (String × Bool) :=
  if res.exitCode ≠ 0 ∨ res.stdout = "" then []
  else
    let images := (jsSplit '\n' res.stdout).map parseImageLine
    let sorted := sortDesc dateVal images
    (sorted.drop keepCount).map fun img => (img.1, delOk img.1)

/-! ## Running-container discovery (`container.ts`, `listRunningContainers`) -/

/-- JS `line.split(/\s+/)` (split on maximal whitespace runs; a leading or
trailing run contributes an empty first or last piece). -/
def splitWsAux : Bool → List Char → List Char → List (List Char)
  | _, acc, [] => [acc.reverse]
  | inWs, acc, c :: cs =>
    if isWs c then
      if inWs then splitWsAux true acc cs
      else acc.reverse :: splitWsAux true [] cs
    else splitWsAux false (c :: acc) cs

/-- `line.split(/\s+/)` from the start of a line. -/
def splitWs (l : List Char) : List (List Char) := splitWsAux false [] l

/-- One discovered managed container: name plus the two management labels. -/
structure ManagedContainer where
  containerName : String
  projectId : String
  buildId : String
deriving DecidableEq

/-- One line of the listing parsed back: split on whitespace runs, require at
least three fields (`containerName`, the two label values) and non-empty
label values; otherwise the line is dropped (`null` in the source). -/
def parseListedLine (line : String) : Option ManagedContainer :=
  match splitWs line.data with
  | name :: pid :: bid :: _ =>
    if pid ≠ [] ∧ bid ≠ [] then some ⟨⟨name⟩, ⟨pid⟩, ⟨bid⟩⟩ else none
  | _ => none

/-- `listRunningContainers()`: `[]` on a non-zero exit; otherwise split stdout
into lines, drop empty lines (`filter(Boolean)`), and parse each line,
silently dropping the unparseable ones. -/
def listRunningContainers (res : ExecResult) : List ManagedContainer :=
  if res.exitCode ≠ 0 then []
  else ((jsSplit '\n' res.stdout).filter fun l => l ≠ "").filterMap parseListedLine

/-- `recoverLogStreams()`: the `(projectId, buildId)` pairs it passes to
`startLogStreaming`, one per discovered running container. -/
def recoverAttachList (res : ExecResult) : List (String × String) :=
  (listRunningContainers res).map fun c => (c.projectId, c.buildId)

/-! ## Character-class facts -/

theorem ws_cases {c : Char} (h : isWs c = true) :
    c = ' ' ∨ c = '\t' ∨ c = '\x0d' ∨ c = '\n' := by
  have h' : ((c = ' ' ∨ c = '\t') ∨ c = '\x0d') ∨ c = '\n' := by
    simpa [isWs, Char.isWhitespace] using h
  tauto

theorem toUpper_of_ws {c : Char} (h : isWs c = true) : c.toUpper = c := by
  rcases ws_cases h with h' | h' | h' | h' <;> subst h' <;> decide

theorem ws_toUpper_ne {c : Char} (h : isWs c = true) {t : Char}
    (ht : isWs t = false) : c.toUpper ≠ t := by
  rw [toUpper_of_ws h]
  intro he
  subst he
  rw [h] at ht
  cases ht

theorem not_ws_of_toUpper_eq {c t : Char} (ht : isWs t = false)
    (h : c.toUpper = t) : isWs c = false := by
  by_contra hb
  have hw : isWs c = true := by
    cases hcw : isWs c
    · exact absurd hcw hb
    · rfl
  exact ws_toUpper_ne hw ht h

theorem toDigitsCore_succ_eq (n fuel : Nat) (ds : List Char) :
    Nat.toDigitsCore 10 (fuel + 1) n ds =
      if n / 10 = 0 then (n % 10).digitChar :: ds
      else Nat.toDigitsCore 10 fuel (n / 10) ((n % 10).digitChar :: ds) := by
  rw [Nat.toDigitsCore]

theorem digitChar_mem (n : Nat) : (n % 10).digitChar ∈ "0123456789".data := by
  have hlt : n % 10 < 10 := Nat.mod_lt _ (by norm_num)
  generalize hm : n % 10 = m at hlt
  interval_cases m <;> decide

/-- Every character `Nat.toDigitsCore 10` accumulates is a decimal digit
or came from the accumulator. -/
theorem toDigitsCore_mem :
    ∀ (fuel n : Nat) (ds : List Char) (c : Char),
      c ∈ Nat.toDigitsCore 10 fuel n ds → c ∈ "0123456789".data ∨ c ∈ ds := by
  intro fuel
  induction fuel with
  | zero => intro n ds c h; exact Or.inr h
  | succ fuel ih =>
    intro n ds c h
    rw [toDigitsCore_succ_eq] at h
    by_cases hz : n / 10 = 0
    · rw [if_pos hz] at h
      rcases List.mem_cons.mp h with h1 | h1
      · exact Or.inl (h1 ▸ digitChar_mem n)
      · exact Or.inr h1
    · rw [if_neg hz] at h
      rcases ih (n / 10) ((n % 10).digitChar :: ds) c h with h1 | h1
      · exact Or.inl h1
      · rcases List.mem_cons.mp h1 with h2 | h2
        · exact Or.inl (h2 ▸ digitChar_mem n)
        · exact Or.inr h2

theorem toDigitsCore_length :
    ∀ (fuel n : Nat) (ds : List Char),
      ds.length ≤ (Nat.toDigitsCore 10 fuel n ds).length := by
  intro fuel
  induction fuel with
  | zero => intro n ds; exact Nat.le_refl _
  | succ fuel ih =>
    intro n ds
    rw [toDigitsCore_succ_eq]
    by_cases hz : n / 10 = 0
    · rw [if_pos hz]; simp
    · rw [if_neg hz]
      calc ds.length ≤ ((n % 10).digitChar :: ds).length := by simp
        _ ≤ _ := ih _ _

/-- The decimal rendering of a `Nat` (what `` `${internalPort}` `` interpolates)
consists of decimal digits only. -/
theorem natStr_digits (p : Nat) : ∀ c ∈ (toString p).data, c ∈ "0123456789".data := by
  intro c hc
  have h : c ∈ Nat.toDigits 10 p := hc
  rcases toDigitsCore_mem (p + 1) p [] c h with h' | h'
  · exact h'
  · cases h'

/-- The decimal rendering of a `Nat` is nonempty. -/
theorem natStr_ne_nil (p : Nat) : (toString p).data ≠ [] := by
  intro h
  have h0 : (toString p).data = Nat.toDigitsCore 10 (p + 1) p [] := rfl
  rw [h0, toDigitsCore_succ_eq] at h
  by_cases hz : p / 10 = 0
  · rw [if_pos hz] at h; cases h
  · rw [if_neg hz] at h
    have := toDigitsCore_length p (p / 10) [(p % 10).digitChar]
    rw [h] at this
    simp at this

theorem digit_not_ws {c : Char} (h : c ∈ "0123456789".data) : isWs c = false := by
  fin_cases h <;> decide

theorem digit_toUpper {c : Char} (h : c ∈ "0123456789".data) : c.toUpper = c := by
  fin_cases h <;> decide

theorem digit_toUpper_ne_P {c : Char} (h : c ∈ "0123456789".data) : c.toUpper ≠ 'P' := by
  fin_cases h <;> decide

/-! ## Trim, prefix and insertion lemmas -/

theorem dropWhile_append_split (p : α → Bool) (xs ys : List α) :
    (xs ++ ys).dropWhile p =
      if (xs.dropWhile p).isEmpty then ys.dropWhile p else xs.dropWhile p ++ ys := by
  induction xs with
  | nil => simp
  | cons a as ih =>
    by_cases ha : p a
    · simpa [List.dropWhile_cons, ha] using ih
    · simp [List.dropWhile_cons, ha]

theorem dropTrailWs_concat {b : Char} (hb : isWs b = false) (l : List Char) :
    dropTrailWs (l ++ [b]) = l ++ [b] := by
  unfold dropTrailWs
  rw [List.reverse_append]
  have h1 : (([b] : List Char).reverse ++ l.reverse).dropWhile isWs =
      [b] ++ l.reverse := by
    simp [List.dropWhile_cons, hb]
  rw [h1]
  simp

theorem dropTrailWs_cons {a : Char} (ha : isWs a = false) (l : List Char) :
    dropTrailWs (a :: l) = a :: dropTrailWs l := by
  unfold dropTrailWs
  have h0 : (a :: l).reverse = l.reverse ++ [a] := by simp
  rw [h0, dropWhile_append_split]
  by_cases he : (l.reverse.dropWhile isWs).isEmpty
  · rw [if_pos he]
    have h1 : ([a] : List Char).dropWhile isWs = [a] := by
      simp [List.dropWhile_cons, ha]
    rw [h1]
    have h2 : l.reverse.dropWhile isWs = [] := by
      cases hd : l.reverse.dropWhile isWs with
      | nil => rfl
      | cons x xs => rw [hd] at he; cases he
    rw [h2]
    rfl
  · rw [if_neg he]
    simp

theorem dropWhile_ws_all {w : List Char} (hw : ∀ c ∈ w, isWs c = true)
    (m : List Char) : (w ++ m).dropWhile isWs = m.dropWhile isWs := by
  induction w with
  | nil => rfl
  | cons a as ih =>
    have ha : isWs a = true := hw a (List.mem_cons_self a as)
    have ih' := ih fun c hc => hw c (List.mem_cons_of_mem a hc)
    simpa [List.dropWhile_cons, ha] using ih'

theorem trimL_cons {a : Char} (ha : isWs a = false) (l : List Char) :
    trimL (a :: l) = a :: dropTrailWs l := by
  unfold trimL
  rw [List.dropWhile_cons]
  rw [ha]
  exact dropTrailWs_cons ha l

/-- A list with a non-whitespace head and a non-whitespace last element is
unchanged by `trim`. -/
theorem trimL_eq_self {a b : Char} (ha : isWs a = false) (hb : isWs b = false)
    (m : List Char) : trimL (a :: (m ++ [b])) = a :: (m ++ [b]) := by
  rw [trimL_cons ha, dropTrailWs_concat hb]

theorem prefOf_append_self (s t : List Char) : prefOf s (s ++ t) = true := by
  induction s with
  | nil => rfl
  | cons a as ih => simpa [prefOf] using ih

theorem prefOf_iff (p l : List Char) : prefOf p l = true ↔ ∃ t, l = p ++ t := by
  induction p generalizing l with
  | nil => simp [prefOf]
  | cons a as ih =>
    cases l with
    | nil =>
      simp only [prefOf]
      constructor
      · intro h; cases h
      · rintro ⟨t, ht⟩; cases ht
    | cons b bs =>
      simp only [prefOf, Bool.and_eq_true, beq_iff_eq]
      rw [ih bs]
      constructor
      · rintro ⟨rfl, t, rfl⟩; exact ⟨t, rfl⟩
      · rintro ⟨t, ht⟩
        injection ht with h1 h2
        exact ⟨h1.symm, t, h2⟩

theorem mem_insertAt (x y : α) : ∀ (i : Nat) (l : List α),
    (x ∈ insertAt i y l ↔ x = y ∨ x ∈ l) := by
  intro i l
  induction l generalizing i with
  | nil => simp [insertAt]
  | cons a as ih =>
    cases i with
    | zero => simp [insertAt]
    | succ j =>
      simp only [insertAt, List.mem_cons, ih j]
      tauto

theorem mem_takeWhile (p : α → Bool) : ∀ (l : List α), ∀ c ∈ l.takeWhile p, p c = true := by
  intro l
  induction l with
  | nil => intro c hc; cases hc
  | cons a as ih =>
    intro c hc
    rw [List.takeWhile_cons] at hc
    by_cases ha : p a
    · rw [if_pos ha] at hc
      rcases List.mem_cons.mp hc with h1 | h1
      · exact h1 ▸ ha
      · exact ih c h1
    · rw [if_neg ha] at hc
      cases hc

theorem prefOf_cons₂_false {a0 a1 b0 b1 : Char} (as bs : List Char)
    (h : (a1 == b1) = false) : prefOf (a0 :: a1 :: as) (b0 :: b1 :: bs) = false := by
  simp [prefOf, h]

theorem prefOf_cons₁_false {a0 b0 : Char} (as bs : List Char)
    (h : (a0 == b0) = false) : prefOf (a0 :: as) (b0 :: bs) = false := by
  simp [prefOf, h]

theorem upperL_digits {ds : List Char} (h : ∀ c ∈ ds, c ∈ "0123456789".data) :
    upperL ds = ds := by
  unfold upperL
  rw [List.map_congr_left fun c hc => digit_toUpper (h c hc)]
  exact List.map_id ds

/-! ## Per-line facts about the sanitizer -/

/-- The regex cannot match at a character whose upper case is not `P`. -/
theorem portMatchAt_none {c : Char} (h : c.toUpper ≠ 'P') :
    ∀ cs, portMatchAt (c :: cs) = none := by
  intro cs
  match cs with
  | [] => rfl
  | [_] => rfl
  | [_, _] => rfl
  | c1 :: c2 :: c3 :: rest =>
    simp only [portMatchAt]
    rw [if_neg]
    intro hcon
    exact h hcon.1

/-- The first-match scan passes over a region with no upper-case `P`. -/
theorem replacePortL_append {pre : List Char} (hp : ∀ c ∈ pre, c.toUpper ≠ 'P')
    (p : Nat) (rest : List Char) :
    replacePortL p (pre ++ rest) = pre ++ replacePortL p rest := by
  induction pre with
  | nil => rfl
  | cons a as ih =>
    have ha : a.toUpper ≠ 'P' := hp a (List.mem_cons_self a as)
    have ih' := ih fun c hc => hp c (List.mem_cons_of_mem a hc)
    rw [List.cons_append, replacePortL, portMatchAt_none ha, ih']
    rfl

/-- `trim` only removes a whitespace suffix: what remains is a prefix. -/
theorem dropTrailWs_decomp (m : List Char) :
    ∃ s, m = dropTrailWs m ++ s ∧ ∀ c ∈ s, isWs c = true := by
  refine ⟨(m.reverse.takeWhile isWs).reverse, ?_, ?_⟩
  · conv_lhs => rw [← List.reverse_reverse m,
      ← List.takeWhile_append_dropWhile isWs m.reverse]
    rw [List.reverse_append]
    rfl
  · intro c hc
    exact mem_takeWhile isWs m.reverse c (List.mem_reverse.mp hc)

/-- `` `EXPOSE ${p}` `` is itself classified as a port-exposing line. -/
theorem isExposeLine_exposeLineFor (p : Nat) : isExposeLine (exposeLineFor p) = true := by
  rcases List.eq_nil_or_concat (toString p).data with hnil | ⟨L, b, hds⟩
  · exact absurd hnil (natStr_ne_nil p)
  · have hbdig : b ∈ "0123456789".data :=
      natStr_digits p b (by rw [hds, List.concat_eq_append]; simp)
    have hLdig : ∀ c ∈ L, c ∈ "0123456789".data := fun c hc =>
      natStr_digits p c (by rw [hds, List.concat_eq_append]; exact List.mem_append_left _ hc)
    unfold isExposeLine exposeLineFor
    rw [hds, List.concat_eq_append]
    have hshape : "EXPOSE ".data ++ (L ++ [b]) =
        'E' :: (("XPOSE ".data ++ L) ++ [b]) := by
      show ('E' :: "XPOSE ".data) ++ (L ++ [b]) = 'E' :: (("XPOSE ".data ++ L) ++ [b])
      simp
    rw [hshape, trimL_eq_self (by decide) (digit_not_ws hbdig), ← hshape]
    unfold upperL
    rw [List.map_append]
    have h1 : List.map Char.toUpper "EXPOSE ".data = "EXPOSE ".data := by decide
    have h2 : List.map Char.toUpper (L ++ [b]) = L ++ [b] :=
      upperL_digits fun c hc => by
        rcases List.mem_append.mp hc with h' | h'
        · exact hLdig c h'
        · rcases List.mem_singleton.mp h' with rfl
          exact hbdig
    rw [h1, h2]
    exact prefOf_append_self _ _

/-- `` `ENV PORT=${p}` `` is not classified as a port-exposing line. -/
theorem envPortLineFor_not_expose (p : Nat) : isExposeLine (envPortLineFor p) = false := by
  rcases List.eq_nil_or_concat (toString p).data with hnil | ⟨L, b, hds⟩
  · exact absurd hnil (natStr_ne_nil p)
  · have hbdig : b ∈ "0123456789".data :=
      natStr_digits p b (by rw [hds, List.concat_eq_append]; simp)
    have hLdig : ∀ c ∈ L, c ∈ "0123456789".data := fun c hc =>
      natStr_digits p c (by rw [hds, List.concat_eq_append]; exact List.mem_append_left _ hc)
    unfold isExposeLine envPortLineFor
    rw [hds, List.concat_eq_append]
    have hshape : "ENV PORT=".data ++ (L ++ [b]) =
        'E' :: (("NV PORT=".data ++ L) ++ [b]) := by
      show ('E' :: "NV PORT=".data) ++ (L ++ [b]) = 'E' :: (("NV PORT=".data ++ L) ++ [b])
      simp
    rw [hshape, trimL_eq_self (by decide) (digit_not_ws hbdig), ← hshape]
    unfold upperL
    rw [List.map_append]
    have h1 : List.map Char.toUpper "ENV PORT=".data = "ENV PORT=".data := by decide
    rw [h1]
    show prefOf "EXPOSE ".data ('E' :: 'N' :: ("V PORT=".data ++ _)) = false
    exact prefOf_cons₂_false _ _ (by decide)

/-- A commented-out (security-neutralized) line is not a port-exposing line. -/
theorem comment_not_expose (l : List Char) :
    isExposeLine ("# REMOVED FOR SECURITY: ".data ++ l) = false := by
  unfold isExposeLine
  have hshape : "# REMOVED FOR SECURITY: ".data ++ l =
      '#' :: (" REMOVED FOR SECURITY: ".data ++ l) := rfl
  rw [hshape, trimL_cons (by decide)]
  unfold upperL
  rw [List.map_cons]
  show prefOf "EXPOSE ".data ('#' :: _) = false
  exact prefOf_cons₁_false _ _ (by decide)

theorem upperL_cons_inv {x : List Char} {u : Char} {us : List Char}
    (h : upperL x = u :: us) : ∃ c cs, x = c :: cs ∧ c.toUpper = u ∧ upperL cs = us := by
  cases x with
  | nil => exact absurd h (by simp [upperL])
  | cons c cs =>
    unfold upperL at h
    rw [List.map_cons] at h
    injection h with h1 h2
    exact ⟨c, cs, rfl, h1, h2⟩

/-- Rewriting the port value inside an `ENV … PORT …` line never turns it into
a line the sanitizer would classify as port-exposing: the regex match starts at
a (case-insensitive) `P`, so the characters of the leading `ENV` keyword
survive the replacement. -/
theorem env_replace_not_expose (p : Nat) (l : List Char)
    (henv : isEnvPortLine l = true) : isExposeLine (replacePortL p l) = false := by
  have hpre : prefOf "ENV ".data (upperL (trimL l)) = true := by
    unfold isEnvPortLine at henv
    rw [Bool.and_eq_true] at henv
    exact henv.1
  obtain ⟨t0, ht0⟩ := (prefOf_iff _ _).mp hpre
  have htrim : trimL l = dropTrailWs (l.dropWhile isWs) := rfl
  rw [htrim] at ht0
  have ht0' : upperL (dropTrailWs (l.dropWhile isWs)) = 'E' :: 'N' :: 'V' :: ' ' :: t0 := ht0
  obtain ⟨c0, x1, hx0, hc0, hu1⟩ := upperL_cons_inv ht0'
  obtain ⟨c1, x2, hx1, hc1, hu2⟩ := upperL_cons_inv hu1
  obtain ⟨c2, x3, hx2, hc2, hu3⟩ := upperL_cons_inv hu2
  obtain ⟨c3, x4, hx3, hc3, _⟩ := upperL_cons_inv hu3
  obtain ⟨s, hms, _⟩ := dropTrailWs_decomp (l.dropWhile isWs)
  have hwws : ∀ c ∈ l.takeWhile isWs, isWs c = true := mem_takeWhile isWs l
  have hm : l.dropWhile isWs = c0 :: c1 :: c2 :: c3 :: (x4 ++ s) := by
    rw [hms, hx0, hx1, hx2, hx3]
    simp
  have hl : l = (l.takeWhile isWs ++ [c0, c1, c2]) ++ (c3 :: (x4 ++ s)) := by
    conv_lhs => rw [← List.takeWhile_append_dropWhile isWs l]
    rw [hm]
    simp
  have hc0ws : isWs c0 = false := not_ws_of_toUpper_eq (by decide) hc0
  have hc1ws : isWs c1 = false := not_ws_of_toUpper_eq (by decide) hc1
  have hc2ws : isWs c2 = false := not_ws_of_toUpper_eq (by decide) hc2
  have hPs : ∀ c ∈ l.takeWhile isWs ++ [c0, c1, c2], c.toUpper ≠ 'P' := by
    intro c hc
    rcases List.mem_append.mp hc with h' | h'
    · exact ws_toUpper_ne (hwws c h') (by decide)
    · simp only [List.mem_cons, List.mem_singleton] at h'
      rcases h' with rfl | rfl | rfl | h''
      · rw [hc0]; decide
      · rw [hc1]; decide
      · rw [hc2]; decide
      · cases h''
  have hrepl : replacePortL p l =
      l.takeWhile isWs ++ (c0 :: c1 :: c2 :: replacePortL p (c3 :: (x4 ++ s))) := by
    conv_lhs => rw [hl]
    rw [replacePortL_append hPs]
    simp
  rw [hrepl]
  unfold isExposeLine
  have hd1 : (l.takeWhile isWs ++
      (c0 :: c1 :: c2 :: replacePortL p (c3 :: (x4 ++ s)))).dropWhile isWs
      = c0 :: c1 :: c2 :: replacePortL p (c3 :: (x4 ++ s)) := by
    rw [dropWhile_ws_all hwws, List.dropWhile_cons, hc0ws]
    simp
  have ht : trimL (l.takeWhile isWs ++
      (c0 :: c1 :: c2 :: replacePortL p (c3 :: (x4 ++ s))))
      = c0 :: c1 :: c2 :: dropTrailWs (replacePortL p (c3 :: (x4 ++ s))) := by
    unfold trimL
    rw [hd1, dropTrailWs_cons hc0ws, dropTrailWs_cons hc1ws, dropTrailWs_cons hc2ws]
  rw [ht]
  unfold upperL
  rw [List.map_cons, List.map_cons, hc0, hc1]
  exact prefOf_cons₂_false _ _ (by decide)

theorem sanitizeLine_of_expose (p : Nat) (l : List Char) (h : isExposeLine l = true) :
    sanitizeLine p l = exposeLineFor p := by
  unfold sanitizeLine
  rw [h]
  rfl

/-- A sanitized line that is classified as port-exposing is exactly the
rewritten `` `EXPOSE ${p}` `` line. -/
theorem sanitizeLine_expose_eq (p : Nat) (l : List Char)
    (h : isExposeLine (sanitizeLine p l) = true) : sanitizeLine p l = exposeLineFor p := by
  cases h1 : isExposeLine l with
  | true => exact sanitizeLine_of_expose p l h1
  | false =>
    unfold sanitizeLine at h
    rw [h1] at h
    cases h2 : isEnvPortLine l with
    | true =>
      rw [h2] at h
      simp only [Bool.false_eq_true, if_false, if_true] at h
      rw [env_replace_not_expose p l h2] at h
      cases h
    | false =>
      rw [h2] at h
      cases h3 : isDangerLine l with
      | true =>
        rw [h3] at h
        simp only [Bool.false_eq_true, if_false, if_true] at h
        rw [comment_not_expose l] at h
        cases h
      | false =>
        rw [h3] at h
        simp only [Bool.false_eq_true, if_false] at h
        rw [h1] at h
        cases h

theorem mem_sanitizeWithExpose {p : Nat} {lines : List (List Char)} {x : List Char}
    (hx : x ∈ sanitizeWithExpose p lines) :
    x = exposeLineFor p ∨ ∃ l ∈ lines, x = sanitizeLine p l := by
  unfold sanitizeWithExpose sanitizeMapped at hx
  by_cases hE : lines.any isExposeLine = true
  · rw [if_pos hE] at hx
    obtain ⟨l, hl, hxl⟩ := List.mem_map.mp hx
    exact Or.inr ⟨l, hl, hxl.symm⟩
  · rw [if_neg hE] at hx
    rcases List.mem_append.mp hx with h' | h'
    · obtain ⟨l, hl, hxl⟩ := List.mem_map.mp h'
      exact Or.inr ⟨l, hl, hxl.symm⟩
    · exact Or.inl (List.mem_singleton.mp h')

theorem expose_mem_sanitizeWithExpose (p : Nat) (lines : List (List Char)) :
    ∃ l ∈ sanitizeWithExpose p lines, isExposeLine l = true := by
  unfold sanitizeWithExpose sanitizeMapped
  by_cases hE : lines.any isExposeLine = true
  · rw [if_pos hE]
    obtain ⟨l0, hl0, hexp⟩ := List.any_eq_true.mp hE
    refine ⟨exposeLineFor p, ?_, isExposeLine_exposeLineFor p⟩
    rw [← sanitizeLine_of_expose p l0 hexp]
    exact List.mem_map.mpr ⟨l0, hl0, rfl⟩
  · rw [if_neg hE]
    exact ⟨exposeLineFor p, List.mem_append_right _ (List.mem_singleton.mpr rfl),
      isExposeLine_exposeLineFor p⟩

theorem sanitizeWithExpose_subset {p : Nat} {lines : List (List Char)} {x : List Char}
    (hx : x ∈ sanitizeWithExpose p lines) : x ∈ sanitizeLines p lines := by
  unfold sanitizeLines
  by_cases hP : (lines.any fun l => !isExposeLine l && isEnvPortLine l) = true
  · rw [if_pos hP]; exact hx
  · rw [if_neg hP]
    cases hidx : (sanitizeWithExpose p lines).findIdx? isCmdLine with
    | some i => exact (mem_insertAt x (envPortLineFor p) i _).mpr (Or.inr hx)
    | none => exact List.mem_append_left _ hx

theorem mem_sanitizeLines {p : Nat} {lines : List (List Char)} {x : List Char}
    (hx : x ∈ sanitizeLines p lines) :
    x = envPortLineFor p ∨ x ∈ sanitizeWithExpose p lines := by
  unfold sanitizeLines at hx
  by_cases hP : (lines.any fun l => !isExposeLine l && isEnvPortLine l) = true
  · rw [if_pos hP] at hx; exact Or.inr hx
  · rw [if_neg hP] at hx
    cases hidx : (sanitizeWithExpose p lines).findIdx? isCmdLine with
    | some i =>
      rw [hidx] at hx
      rcases (mem_insertAt x (envPortLineFor p) i _).mp hx with h' | h'
      · exact Or.inl h'
      · exact Or.inr h'
    | none =>
      rw [hidx] at hx
      rcases List.mem_append.mp hx with h' | h'
      · exact Or.inr h'
      · exact Or.inl (List.mem_singleton.mp h')

/-- C3: for every recipe content string and every assigned internal port, the
sanitized recipe contains at least one port-exposing (EXPOSE) instruction,
and every port-exposing instruction in it is exactly `` `EXPOSE ${port}` `` —
multiple EXPOSE instructions in the input all get the same rewritten value, a
missing one is appended, and no other port is ever exposed. -/
theorem sanitizeDockerfile_expose_spec (content : String) (port : Nat) :
    (∃ l ∈ sanitizeLines port (splitNl content.data), isExposeLine l = true)
    ∧ ∀ l ∈ sanitizeLines port (splitNl content.data),
        isExposeLine l = true → l = exposeLineFor port := by
  constructor
  · obtain ⟨l, hl, hexp⟩ := expose_mem_sanitizeWithExpose port (splitNl content.data)
    exact ⟨l, sanitizeWithExpose_subset hl, hexp⟩
  · intro l hl hexp
    rcases mem_sanitizeLines hl with h' | h'
    · rw [h'] at hexp
      rw [envPortLineFor_not_expose port] at hexp
      cases hexp
    · rcases mem_sanitizeWithExpose h' with h'' | ⟨l0, _, hxl⟩
      · exact h''
      · rw [hxl] at hexp ⊢
        exact sanitizeLine_expose_eq port l0 hexp

/-- C9 counterexample: the recipe `"expose 3000\nENV PORT=3000"` already
exposes exactly the assigned internal port 3000 (it has a port-exposing
instruction, and every such instruction's argument is `3000`) and already sets
the port environment variable to 3000 (its ENV line is a fixed point of the
port-value rewrite), yet sanitizing it is not a no-op: the lower-case
`expose 3000` is rewritten to `EXPOSE 3000`, so the output differs from the
input character for character. -/
theorem sanitize_noop_cex :
    ((∃ l ∈ splitNl "expose 3000\nENV PORT=3000".data, isExposeLine l = true)
    ∧ (∀ l ∈ splitNl "expose 3000\nENV PORT=3000".data, isExposeLine l = true →
        (upperL (trimL l)).drop 7 = (toString 3000).data)
    ∧ (∃ l ∈ splitNl "expose 3000\nENV PORT=3000".data,
        isEnvPortLine l = true ∧ replacePortL 3000 l = l))
    ∧ sanitizeDockerfile "expose 3000\nENV PORT=3000" 3000 ≠ "expose 3000\nENV PORT=3000" := by
  decide

theorem splitNl_ne_nil : ∀ l : List Char, splitNl l ≠ [] := by
  intro l
  cases l with
  | nil => simp [splitNl]
  | cons c cs =>
    unfold splitNl
    by_cases hc : c = '\n'
    · rw [if_pos hc]; simp
    · rw [if_neg hc]
      cases hsp : splitNl cs with
      | nil => simp
      | cons t ts => simp

/-- JS `content.split('\n').join('\n')` round-trips. -/
theorem joinNl_splitNl : ∀ l : List Char, joinNl (splitNl l) = l := by
  intro l
  induction l with
  | nil => rfl
  | cons c cs ih =>
    unfold splitNl
    by_cases hc : c = '\n'
    · rw [if_pos hc, hc]
      cases hsp : splitNl cs with
      | nil => exact absurd hsp (splitNl_ne_nil cs)
      | cons t ts =>
        rw [hsp] at ih
        show joinNl ([] :: t :: ts) = '\n' :: cs
        rw [show joinNl ([] :: t :: ts) = '\n' :: joinNl (t :: ts) from rfl, ih]
    · rw [if_neg hc]
      cases hsp : splitNl cs with
      | nil => exact absurd hsp (splitNl_ne_nil cs)
      | cons t ts =>
        rw [hsp] at ih
        cases ts with
        | nil =>
          show c :: t = c :: cs
          simp only [joinNl] at ih
          rw [ih]
        | cons t2 ts2 =>
          show (c :: t) ++ '\n' :: joinNl (t2 :: ts2) = c :: cs
          simp only [joinNl] at ih
          rw [List.cons_append, ih]

/-- C9 (amended): sanitizing a recipe whose port-exposing instructions are all
written literally as `` `EXPOSE ${port}` `` (at least one present), in which
some non-EXPOSE line is classified as a port-environment line and every such
line is a fixed point of the port-value rewrite, and whose remaining lines
match no dangerous-instruction pattern, is a no-op: the output equals the
input character for character — and consequently `buildImage` does not write
the recipe file back. -/
theorem sanitize_canonical_noop (content : String) (port : Nat)
    (hexpEq : ∀ l ∈ splitNl content.data, isExposeLine l = true → l = exposeLineFor port)
    (henv : ∃ l ∈ splitNl content.data, isExposeLine l = false ∧ isEnvPortLine l = true)
    (hexp : ∃ l ∈ splitNl content.data, isExposeLine l = true)
    (henvEq : ∀ l ∈ splitNl content.data, isEnvPortLine l = true → replacePortL port l = l)
    (hdanger : ∀ l ∈ splitNl content.data, isDangerLine l = false) :
    sanitizeDockerfile content port = content
    ∧ ∀ (projectId buildId : String) (framework : AppType) (hasStart : Bool)
        (entryFound : Option String) (buildExitCode : Nat) (buildError : String),
        (buildImage projectId buildId ⟨true, some content⟩ framework port hasStart
          entryFound buildExitCode buildError).wroteSanitized = false := by
  have hmap : ∀ l ∈ splitNl content.data, sanitizeLine port l = l := by
    intro l hl
    unfold sanitizeLine
    cases h1 : isExposeLine l with
    | true =>
      simp only [if_true]
      exact (hexpEq l hl h1).symm
    | false =>
      simp only [Bool.false_eq_true, if_false]
      cases h2 : isEnvPortLine l with
      | true =>
        simp only [if_true]
        exact henvEq l hl h2
      | false =>
        simp only [Bool.false_eq_true, if_false, hdanger l hl]
  have hlines : sanitizeLines port (splitNl content.data) = splitNl content.data := by
    have hE : (splitNl content.data).any isExposeLine = true := by
      obtain ⟨l, hl, h⟩ := hexp
      exact List.any_eq_true.mpr ⟨l, hl, h⟩
    have hP : ((splitNl content.data).any fun l => !isExposeLine l && isEnvPortLine l) = true := by
      obtain ⟨l, hl, hne, h⟩ := henv
      exact List.any_eq_true.mpr ⟨l, hl, by rw [hne, h]; rfl⟩
    unfold sanitizeLines
    rw [if_pos hP]
    unfold sanitizeWithExpose
    rw [if_pos hE]
    unfold sanitizeMapped
    exact List.map_congr_left hmap |>.trans (List.map_id _)
  have hnoop : sanitizeDockerfile content port = content := by
    unfold sanitizeDockerfile
    rw [hlines, joinNl_splitNl]
  refine ⟨hnoop, ?_⟩
  intro projectId buildId framework hasStart entryFound buildExitCode buildError
  unfold buildImage
  simp only [Bool.true_eq_false, if_false, hnoop, if_pos rfl]
  by_cases hec : buildExitCode ≠ 0
  · rw [if_pos hec]
    simp
  · rw [if_neg hec]
    simp

/-- C9 witness: a canonical recipe on which the amended no-op theorem applies
with all hypotheses discharged at a concrete input. -/
theorem sanitize_canonical_noop_witness :
    sanitizeDockerfile "FROM oven/bun:1-alpine\nEXPOSE 3000\nENV PORT=3000\nCMD [\"bun\"]" 3000 =
      "FROM oven/bun:1-alpine\nEXPOSE 3000\nENV PORT=3000\nCMD [\"bun\"]"
    ∧ (buildImage "proj-aaaa" "bld-bbbb"
        ⟨true, some "FROM oven/bun:1-alpine\nEXPOSE 3000\nENV PORT=3000\nCMD [\"bun\"]"⟩
        AppType.express 3000 true none 0 "").wroteSanitized = false := by
  have h := sanitize_canonical_noop
    "FROM oven/bun:1-alpine\nEXPOSE 3000\nENV PORT=3000\nCMD [\"bun\"]" 3000
    (by decide) (by decide) (by decide) (by decide) (by decide)
  exact ⟨h.1, h.2 "proj-aaaa" "bld-bbbb" AppType.express true none 0 ""⟩

/-- C1: `buildImage` deletes `sourceDir/Dockerfile` even when it was
user-supplied.  Here the user-supplied recipe is already canonical (the
sanitizer does not even write it back, `wroteSanitized = false`, and nothing
was generated, `generated = false`), the build succeeds, and the file is
nevertheless gone afterwards: the cleanup `unlink` is guarded only by
`existsSync`, never by the `dockerfileGenerated` flag the source sets. -/
theorem buildImage_removes_user_dockerfile :
    (buildImage "proj-aaaa" "bld-bbbb"
        ⟨true, some "FROM node:20\nEXPOSE 3000\nENV PORT=3000\nCMD [\"node\"]"⟩
        AppType.express 3000 true none 0 "").fs.dockerfile = none
    ∧ (buildImage "proj-aaaa" "bld-bbbb"
        ⟨true, some "FROM node:20\nEXPOSE 3000\nENV PORT=3000\nCMD [\"node\"]"⟩
        AppType.express 3000 true none 0 "").generated = false
    ∧ (buildImage "proj-aaaa" "bld-bbbb"
        ⟨true, some "FROM node:20\nEXPOSE 3000\nENV PORT=3000\nCMD [\"node\"]"⟩
        AppType.express 3000 true none 0 "").wroteSanitized = false
    ∧ (buildImage "proj-aaaa" "bld-bbbb"
        ⟨true, some "FROM node:20\nEXPOSE 3000\nENV PORT=3000\nCMD [\"node\"]"⟩
        AppType.express 3000 true none 0 "").result.success = true := by
  decide

/-! ## Health-check loop lemmas -/

theorem whLoop_true_iff (respond : Nat → Option Nat) (T : Nat) :
    ∀ (fuel k elapsed : Nat), T ≤ elapsed + 500 * fuel → elapsed = 500 * k →
      ((whLoop respond T fuel k elapsed).1 = true ↔
        ∃ j, k ≤ j ∧ 500 * j < T ∧ healthyResp (respond j) = true) := by
  intro fuel
  induction fuel with
  | zero =>
    intro k elapsed hT he
    constructor
    · intro h
      simp [whLoop] at h
    · rintro ⟨j, hkj, hjT, _⟩
      omega
  | succ fuel ih =>
    intro k elapsed hT he
    rw [whLoop]
    by_cases hel : elapsed < T
    · rw [if_pos hel]
      by_cases hh : healthyResp (respond k) = true
      · rw [if_pos hh]
        constructor
        · intro _
          exact ⟨k, Nat.le_refl k, by omega, hh⟩
        · intro _
          rfl
      · rw [if_neg hh]
        rw [ih (k + 1) (elapsed + 500) (by omega) (by omega)]
        constructor
        · rintro ⟨j, hkj, hjT, hjh⟩
          exact ⟨j, by omega, hjT, hjh⟩
        · rintro ⟨j, hkj, hjT, hjh⟩
          refine ⟨j, ?_, hjT, hjh⟩
          rcases Nat.eq_or_lt_of_le hkj with rfl | hlt
          · exact absurd hjh hh
          · omega
    · rw [if_neg hel]
      constructor
      · intro h
        simp at h
      · rintro ⟨j, hkj, hjT, _⟩
        omega

theorem whLoop_false (respond : Nat → Option Nat) (T : Nat)
    (hall : ∀ j, healthyResp (respond j) = false) :
    ∀ (fuel k elapsed : Nat), T ≤ elapsed + 500 * fuel → elapsed < T + 500 →
      elapsed % 500 = 0 →
      (whLoop respond T fuel k elapsed).1 = false
      ∧ T ≤ (whLoop respond T fuel k elapsed).2
      ∧ (whLoop respond T fuel k elapsed).2 < T + 500
      ∧ (whLoop respond T fuel k elapsed).2 % 500 = 0 := by
  intro fuel
  induction fuel with
  | zero =>
    intro k elapsed hT hub hmod
    refine ⟨rfl, ?_, hub, hmod⟩
    simpa using hT
  | succ fuel ih =>
    intro k elapsed hT hub hmod
    rw [whLoop]
    by_cases hel : elapsed < T
    · rw [if_pos hel, hall k]
      rw [if_neg (by simp)]
      exact ih (k + 1) (elapsed + 500) (by omega) (by omega) (by omega)
    · rw [if_neg hel]
      exact ⟨rfl, by omega, hub, hmod⟩

/-- C5: `waitForHealthy` polls at the fixed 500 ms interval (the k-th poll
happens at elapsed time `500 * k`) and returns `true` iff some poll strictly
inside the timeout window observes an HTTP response of status below 500 (a
4xx client error counts as healthy); against an endpoint that never yields
such a response it returns `false` with an elapsed time of at least the
timeout and less than one interval past it — exactly the timeout whenever the
timeout is a multiple of the interval (as the deploy default 15000 ms is). -/
theorem waitForHealthy_spec (respond : Nat → Option Nat) (timeoutMs : Nat) :
    ((waitForHealthy respond timeoutMs).1 = true ↔
      ∃ k, 500 * k < timeoutMs ∧ healthyResp (respond k) = true)
    ∧ ((∀ k, healthyResp (respond k) = false) →
        (waitForHealthy respond timeoutMs).1 = false
        ∧ timeoutMs ≤ (waitForHealthy respond timeoutMs).2
        ∧ (waitForHealthy respond timeoutMs).2 < timeoutMs + 500
        ∧ (500 ∣ timeoutMs → (waitForHealthy respond timeoutMs).2 = timeoutMs)) := by
  have hdm := Nat.div_add_mod timeoutMs 500
  have hmlt : timeoutMs % 500 < 500 := Nat.mod_lt _ (by norm_num)
  constructor
  · rw [waitForHealthy,
      whLoop_true_iff respond timeoutMs (timeoutMs / 500 + 1) 0 0 (by omega) (by omega)]
    constructor
    · rintro ⟨j, _, hjT, hjh⟩
      exact ⟨j, hjT, hjh⟩
    · rintro ⟨j, hjT, hjh⟩
      exact ⟨j, Nat.zero_le j, hjT, hjh⟩
  · intro hall
    have h := whLoop_false respond timeoutMs hall (timeoutMs / 500 + 1) 0 0
      (by omega) (by omega) (by omega)
    rw [waitForHealthy]
    refine ⟨h.1, h.2.1, h.2.2.1, ?_⟩
    intro hdvd
    obtain ⟨c, rfl⟩ := hdvd
    have h1 := h.2.1
    have h2 := h.2.2.1
    have h3 := h.2.2.2
    omega

/-- C5 witness: against a responder that never answers, a 1500 ms
health-check poll fails at exactly 1500 ms. -/
theorem waitForHealthy_spec_witness :
    (waitForHealthy (fun _ => none) 1500).1 = false
    ∧ (waitForHealthy (fun _ => none) 1500).2 = 1500 := by
  have h := (waitForHealthy_spec (fun _ => none) 1500).2 (fun _ => rfl)
  exact ⟨h.1, h.2.2.2 ⟨3, rfl⟩⟩

/-! ## The deploy orchestrator's health-failure path -/

/-- C2: when the source directory exists, the image build exits 0 and the
container run succeeds, but no health-check poll within the 15000 ms deploy
timeout observes a response of status below 500, `deploy` returns a
structured failure (success `false`, error `"Health check failed"`), fetches
the last 50 log lines of the container, stops and removes the container it
just started, and never starts a log stream (so it never reports success and
never leaves the new container running). -/
theorem deploy_health_timeout_failure (projectId buildId : String) (df : Option String)
    (sourceDir : String) (hostPort : Nat) (appType : AppType)
    (envVars : List (String × String)) (hasStart : Bool) (entryFound : Option String)
    (buildError runErr containerId : String) (respond : Nat → Option Nat)
    (hunh : ∀ k, 500 * k < 15000 → healthyResp (respond k) = false) :
    (deploy projectId buildId ⟨true, df⟩ sourceDir hostPort appType envVars hasStart
      entryFound 0 buildError true runErr containerId respond).1.success = false
    ∧ (deploy projectId buildId ⟨true, df⟩ sourceDir hostPort appType envVars hasStart
        entryFound 0 buildError true runErr containerId respond).1.error =
          some "Health check failed"
    ∧ DockerEvent.getLogs (getContainerName projectId) 50 ∈
        (deploy projectId buildId ⟨true, df⟩ sourceDir hostPort appType envVars hasStart
          entryFound 0 buildError true runErr containerId respond).2
    ∧ DockerEvent.stopAndRemove (getContainerName projectId) ∈
        (deploy projectId buildId ⟨true, df⟩ sourceDir hostPort appType envVars hasStart
          entryFound 0 buildError true runErr containerId respond).2
    ∧ ∀ q b, DockerEvent.startStream q b ∉
        (deploy projectId buildId ⟨true, df⟩ sourceDir hostPort appType envVars hasStart
          entryFound 0 buildError true runErr containerId respond).2 := by
  have hh : (waitForHealthy respond 15000).1 = false := by
    cases hw : (waitForHealthy respond 15000).1
    · rfl
    · obtain ⟨j, _, hjT, hjh⟩ :=
        (whLoop_true_iff respond 15000 (15000 / 500 + 1) 0 0 (by norm_num) (by norm_num)).mp hw
      rw [hunh j hjT] at hjh
      cases hjh
  have hbs : (buildImage projectId buildId ⟨true, df⟩ appType (internalPortFor appType)
      hasStart entryFound 0 buildError).result.success = true := rfl
  simp only [deploy, hbs, hh]
  refine ⟨rfl, rfl, ?_, ?_, ?_⟩
  · simp
  · simp
  · intro q b
    simp

/-- C2 witness: a concrete deploy against a responder that never answers. -/
theorem deploy_health_timeout_failure_witness :
    (deploy "proj-aaaa" "bld-bbbb" ⟨true, none⟩ "/tmp/src" 8080 AppType.express []
      true none 0 "" true "" "cid" fun _ => none).1.success = false
    ∧ DockerEvent.stopAndRemove (getContainerName "proj-aaaa") ∈
        (deploy "proj-aaaa" "bld-bbbb" ⟨true, none⟩ "/tmp/src" 8080 AppType.express []
          true none 0 "" true "" "cid" fun _ => none).2 := by
  have h := deploy_health_timeout_failure "proj-aaaa" "bld-bbbb" none "/tmp/src" 8080
    AppType.express [] true none "" "" "cid" (fun _ => none) (fun _ _ => rfl)
  exact ⟨h.1, h.2.2.2.1⟩

/-! ## Internal port selection -/

/-- C6 counterexample: nothing prevents the internal port from equaling the
externally exposed host port — a deploy of an `express` app with host port
3000 runs its container with an identical internal and host port (the
`-p 3000:3000` mapping). -/
theorem deploy_internal_port_eq_host_cex :
    DockerEvent.runC
      { projectId := "proj-aaaa"
        buildId := "bld-bbbb"
        imageName := "thakur-deploy/proj-aaa:bld-bbbb"
        containerName := "thakur-proj-aaa"
        hostPort := 3000
        internalPort := 3000
        envVars := []
        memoryLimit := "512m"
        cpuLimit := "0.5"
        workDir := "/tmp/src" }
      ∈ (deploy "proj-aaaa" "bld-bbbb" ⟨true, none⟩ "/tmp/src" 3000 AppType.express []
          true none 0 "" true "" "cid" fun _ => some 200).2 := by
  decide

/-- C6 (amended): the container's internal port is determined solely by the
application type — exactly 80 for `vite` (whose recipe is the
static-file-serving template regardless of any detected entry file) and
exactly 3000 for every other type — and is independent of the host port; it
coincides with the externally exposed host port only when the caller passes
that very number as the host port (the code does not enforce inequality). -/
theorem deploy_internal_port_spec (projectId buildId : String) (fs : BuildFS)
    (sourceDir : String) (hostPort : Nat) (appType : AppType)
    (envVars : List (String × String)) (hasStart : Bool) (entryFound : Option String)
    (buildExitCode : Nat) (buildError : String) (runOk : Bool)
    (runErr containerId : String) (respond : Nat → Option Nat) :
    (∀ cfg, DockerEvent.runC cfg ∈
        (deploy projectId buildId fs sourceDir hostPort appType envVars hasStart
          entryFound buildExitCode buildError runOk runErr containerId respond).2 →
        cfg.internalPort = internalPortFor appType ∧ cfg.hostPort = hostPort)
    ∧ internalPortFor AppType.vite = 80
    ∧ (appType ≠ AppType.vite → internalPortFor appType = 3000)
    ∧ ∀ (port : Nat) (entry : Option String),
        getDockerfileContent AppType.vite port entry = viteTemplate := by
  refine ⟨?_, rfl, ?_, fun _ _ => rfl⟩
  · intro cfg hmem
    simp only [deploy] at hmem
    split at hmem
    · simp at hmem
    · split at hmem
      · simp only [List.mem_cons, List.mem_singleton] at hmem
        rcases hmem with h | h | h
        · cases h
        · rw [DockerEvent.runC.injEq] at h
          rw [h]
          exact ⟨rfl, rfl⟩
        · cases h
      · split at hmem
        · simp only [List.mem_cons, List.mem_singleton] at hmem
          rcases hmem with h | h | h | h | h
          · cases h
          · rw [DockerEvent.runC.injEq] at h
            rw [h]
            exact ⟨rfl, rfl⟩
          · cases h
          · cases h
          · cases h
        · simp only [List.mem_cons, List.mem_singleton] at hmem
          rcases hmem with h | h | h | h | h
          · cases h
          · rw [DockerEvent.runC.injEq] at h
            rw [h]
            exact ⟨rfl, rfl⟩
          · cases h
          · cases h
          · cases h
  · intro hne
    cases appType with
    | vite => exact absurd rfl hne
    | nextjs => rfl
    | express => rfl
    | hono => rfl
    | elysia => rfl

/-! ## Naming -/

/-- C7: container and image naming is deterministic and pure — the container
name is the fixed prefix `thakur-` followed by exactly the first 8 characters
of the project identifier, the image reference is the fixed namespace
`thakur-deploy/` plus the first 8 characters of the project identifier, a
colon, and the first 8 characters of the build identifier (these equations
also give determinism: the names are values of pure functions of the
identifiers), and any two project identifiers that differ within their first
8 characters yield different container names. -/
theorem naming_spec (p q b : String) :
    getContainerName p = "thakur-" ++ p.take 8
    ∧ getImageName p b = "thakur-deploy/" ++ p.take 8 ++ ":" ++ b.take 8
    ∧ (p.take 8 ≠ q.take 8 → getContainerName p ≠ getContainerName q) := by
  refine ⟨rfl, rfl, ?_⟩
  intro hne heq
  apply hne
  have hd := congrArg String.data heq
  simp only [getContainerName, String.data_append] at hd
  exact String.ext (List.append_cancel_left hd)

/-! ## Log-stream registry lemmas -/

theorem regFind_eq_none_iff (s : List (String × Nat)) (p : String) :
    regFind s p = none ↔ p ∉ s.map Prod.fst := by
  induction s with
  | nil => simp [regFind]
  | cons qh rest ih =>
    obtain ⟨q, h⟩ := qh
    by_cases hq : q = p
    · subst hq
      simp [regFind]
    · simp only [regFind, if_neg hq, List.map_cons, List.mem_cons, ih]
      constructor
      · intro hn hc
        rcases hc with hc | hc
        · exact hq hc.symm
        · exact hn hc
      · intro hn
        exact fun hc => hn (Or.inr hc)

theorem regFind_some_mem {s : List (String × Nat)} {p : String} {h : Nat}
    (hf : regFind s p = some h) : (p, h) ∈ s := by
  induction s with
  | nil => cases hf
  | cons qh rest ih =>
    obtain ⟨q, h'⟩ := qh
    by_cases hq : q = p
    · subst hq
      rw [regFind, if_pos rfl] at hf
      injection hf with hf
      subst hf
      exact List.mem_cons_self _ _
    · rw [regFind, if_neg hq] at hf
      exact List.mem_cons_of_mem _ (ih hf)

theorem mem_regRemove {s : List (String × Nat)} {p : String} {ph : String × Nat} :
    ph ∈ regRemove s p → ph ∈ s ∧ ph.1 ≠ p := by
  induction s with
  | nil => intro hc; cases hc
  | cons qh rest ih =>
    obtain ⟨q, h⟩ := qh
    intro hc
    by_cases hq : q = p
    · rw [regRemove, if_pos hq] at hc
      exact ⟨List.mem_cons_of_mem _ (ih hc).1, (ih hc).2⟩
    · rw [regRemove, if_neg hq] at hc
      rcases List.mem_cons.mp hc with h' | h'
      · subst h'
        exact ⟨List.mem_cons_self _ _, hq⟩
      · exact ⟨List.mem_cons_of_mem _ (ih h').1, (ih h').2⟩

theorem nodup_map_regRemove (f : String × Nat → α) {s : List (String × Nat)} (p : String)
    (hs : (s.map f).Nodup) : ((regRemove s p).map f).Nodup := by
  induction s with
  | nil => simp [regRemove]
  | cons qh rest ih =>
    obtain ⟨q, h⟩ := qh
    rw [List.map_cons, List.nodup_cons] at hs
    by_cases hq : q = p
    · rw [regRemove, if_pos hq]
      exact ih hs.2
    · rw [regRemove, if_neg hq, List.map_cons, List.nodup_cons]
      refine ⟨?_, ih hs.2⟩
      intro hc
      apply hs.1
      obtain ⟨ph, hph, hfe⟩ := List.mem_map.mp hc
      exact List.mem_map.mpr ⟨ph, (mem_regRemove hph).1, hfe⟩

theorem regFind_regRemove (s : List (String × Nat)) (p : String) :
    regFind (regRemove s p) p = none := by
  rw [regFind_eq_none_iff]
  intro hc
  obtain ⟨ph, hph, hfe⟩ := List.mem_map.mp hc
  exact (mem_regRemove hph).2 hfe

theorem stop_find_self (r : Registry) (p : String) :
    regFind (stopLogStreaming r p).streams p = none := by
  unfold stopLogStreaming
  cases hf : regFind r.streams p with
  | none => exact hf
  | some h => exact regFind_regRemove r.streams p

theorem stop_inv {r : Registry} (hr : RegInv r) (p : String) :
    RegInv (stopLogStreaming r p) := by
  obtain ⟨h1, h2, h3, h4, h5, h6⟩ := hr
  unfold stopLogStreaming
  cases hf : regFind r.streams p with
  | none => exact ⟨h1, h2, h3, h4, h5, h6⟩
  | some h =>
    have hmem : (p, h) ∈ r.streams := regFind_some_mem hf
    refine ⟨h1, nodup_map_regRemove Prod.fst p h2, nodup_map_regRemove Prod.snd p h3,
      ?_, ?_, ?_⟩
    · intro ph hph
      exact h4 ph (mem_regRemove hph).1
    · intro h' hh'
      rcases List.mem_cons.mp hh' with rfl | hh'
      · exact h4 (p, h') hmem
      · exact h5 h' hh'
    · intro ph hph hc
      obtain ⟨hin, hne⟩ := mem_regRemove hph
      rcases List.mem_cons.mp hc with he | hc
      · have : ph = (p, h) := List.inj_on_of_nodup_map h3 hin hmem he
        exact hne (congrArg Prod.fst this)
      · exact h6 ph hin hc

theorem store_inv {r : Registry} (hr : RegInv r)
    {p : String} (hf : regFind r.streams p = none) : RegInv (regStore r p) := by
  obtain ⟨h1, h2, h3, h4, h5, h6⟩ := hr
  unfold regStore
  rw [hf]
  refine ⟨h1, ?_, ?_, ?_, ?_, ?_⟩
  · rw [List.map_cons, List.nodup_cons]
    exact ⟨(regFind_eq_none_iff r.streams p).mp hf, h2⟩
  · rw [List.map_cons, List.nodup_cons]
    refine ⟨?_, h3⟩
    intro hc
    obtain ⟨ph, hph, hfe⟩ := List.mem_map.mp hc
    exact absurd hfe (Nat.ne_of_lt (h4 ph hph))
  · intro ph hph
    rcases List.mem_cons.mp hph with rfl | hph
    · exact Nat.lt_succ_self _
    · exact Nat.lt_succ_of_lt (h4 ph hph)
  · intro h' hh'
    exact Nat.lt_succ_of_lt (h5 h' hh')
  · intro ph hph hc
    rcases List.mem_cons.mp hph with rfl | hph
    · exact absurd rfl (Nat.ne_of_lt' (h5 _ hc))
    · exact h6 ph hph hc

theorem start_inv {r : Registry} (hr : RegInv r) (p : String) :
    RegInv (startLogStreaming r p) :=
  store_inv (stop_inv hr p) (stop_find_self r p)

theorem foldl_start_inv {r : Registry} (hr : RegInv r) (ps : List String) :
    RegInv (ps.foldl startLogStreaming r) := by
  induction ps generalizing r with
  | nil => exact hr
  | cons q qs ih => exact ih (start_inv hr q)

theorem applyRegOp_inv {r : Registry} (hr : RegInv r) (op : RegistryOp) :
    RegInv (applyRegOp r op) := by
  cases op with
  | deployOp p ok =>
    cases ok with
    | true => exact start_inv hr p
    | false => exact hr
  | startOp p => exact start_inv hr p
  | stopStreamOp p => exact stop_inv hr p
  | stopOp p => exact stop_inv hr p
  | cleanupOp p => exact stop_inv hr p
  | recoverOp ps => exact foldl_start_inv hr ps

/-- C4: after any history of API calls (`deploy`, `startLogStreaming`,
`stopLogStreaming`, `stop`, `cleanup`, `recoverLogStreams`), the process-wide
log-stream registry maps each project key to at most one handle, no store
ever found a previous handle still resident for its key (every replacement
went through `stopLogStreaming`, which calls the handle's cancellation
function before deleting it), and no stored handle has had its cancellation
function called — a handle is never overwritten without prior cancellation
and removal. -/
theorem logStream_registry_invariant (ops : List RegistryOp) :
    (runRegOps ops).overwriteViolation = false
    ∧ ((runRegOps ops).streams.map Prod.fst).Nodup
    ∧ ∀ ph ∈ (runRegOps ops).streams, ph.2 ∉ (runRegOps ops).cancelled := by
  have hinit : RegInv initRegistry := by
    refine ⟨rfl, ?_, ?_, ?_, ?_, ?_⟩ <;> simp [initRegistry]
  have hinv : RegInv (runRegOps ops) := by
    unfold runRegOps
    generalize initRegistry = r0 at hinit ⊢
    induction ops generalizing r0 with
    | nil => exact hinit
    | cons op rest ih => exact ih _ (applyRegOp_inv hinit op)
  exact ⟨hinv.1, hinv.2.1, hinv.2.2.2.2.2⟩

/-! ## Image-pruning lemmas -/

theorem mem_insertDesc (dateVal : String → Int) (x b : String × String) :
    ∀ l : List (String × String), b ∈ insertDesc dateVal x l ↔ b = x ∨ b ∈ l := by
  intro l
  induction l with
  | nil => simp [insertDesc]
  | cons y ys ih =>
    unfold insertDesc
    by_cases hc : dateVal y.2 ≤ dateVal x.2
    · rw [if_pos hc]
      simp [List.mem_cons]
    · rw [if_neg hc]
      simp only [List.mem_cons, ih]
      tauto

theorem pairwise_insertDesc (dateVal : String → Int) (x : String × String)
    {l : List (String × String)}
    (hl : l.Pairwise fun a b => dateVal b.2 ≤ dateVal a.2) :
    (insertDesc dateVal x l).Pairwise fun a b => dateVal b.2 ≤ dateVal a.2 := by
  induction l with
  | nil => simp [insertDesc]
  | cons y ys ih =>
    rw [List.pairwise_cons] at hl
    unfold insertDesc
    by_cases hc : dateVal y.2 ≤ dateVal x.2
    · rw [if_pos hc, List.pairwise_cons]
      refine ⟨?_, List.pairwise_cons.mpr hl⟩
      intro b hb
      rcases List.mem_cons.mp hb with rfl | hb
      · exact hc
      · exact le_trans (hl.1 b hb) hc
    · rw [if_neg hc, List.pairwise_cons]
      push_neg at hc
      refine ⟨?_, ih hl.2⟩
      intro b hb
      rcases (mem_insertDesc dateVal x b ys).mp hb with rfl | hb
      · exact le_of_lt hc
      · exact hl.1 b hb

theorem sortDesc_pairwise (dateVal : String → Int) :
    ∀ l : List (String × String),
      (sortDesc dateVal l).Pairwise fun a b => dateVal b.2 ≤ dateVal a.2 := by
  intro l
  induction l with
  | nil => simp [sortDesc]
  | cons x xs ih => exact pairwise_insertDesc dateVal x ih

/-- C8: pruning with retention count 3 lists the images under the project's
derived prefix (the listing filter is exactly the derived prefix), sorts them
by creation time descending and attempts to delete exactly those beyond the 3
most recently created — every kept image is at least as recent as every
deleted one; the attempted deletions are independent of the individual
deletion outcomes (a failed deletion aborts nothing and the operation itself
returns normally either way), a failed or empty listing prunes nothing, and
on the claim's five-image scenario exactly the two oldest are deleted. -/
theorem pruneProjectImages_spec (dateVal : String → Int) (delOk delOk2 : String → Bool)
    (res : ExecResult) :
    ((res.exitCode ≠ 0 ∨ res.stdout = "") → pruneProjectImages dateVal delOk res 3 = [])
    ∧ (pruneProjectImages dateVal delOk res 3).map Prod.fst =
        (pruneProjectImages dateVal delOk2 res 3).map Prod.fst
    ∧ (res.exitCode = 0 → res.stdout ≠ "" →
        (pruneProjectImages dateVal delOk res 3).map Prod.fst =
          ((sortDesc dateVal ((jsSplit '\n' res.stdout).map parseImageLine)).drop 3).map
            Prod.fst
        ∧ ∀ x ∈ (sortDesc dateVal ((jsSplit '\n' res.stdout).map parseImageLine)).take 3,
            ∀ y ∈ (sortDesc dateVal ((jsSplit '\n' res.stdout).map parseImageLine)).drop 3,
              dateVal y.2 ≤ dateVal x.2)
    ∧ (∀ p : String, pruneFilter p = "reference=thakur-deploy/" ++ p.take 8 ++ ":*")
    ∧ (pruneProjectImages (fun s => (s.length : Int)) (fun _ => true)
        ⟨0, "i1 ddddd\ni2 d\ni3 ddd\ni4 dddd\ni5 dd"⟩ 3).map Prod.fst = ["i5", "i2"] := by
  refine ⟨?_, ?_, ?_, fun _ => rfl, by decide⟩
  · intro hfail
    unfold pruneProjectImages
    rw [if_pos hfail]
  · unfold pruneProjectImages
    by_cases hfail : res.exitCode ≠ 0 ∨ res.stdout = ""
    · rw [if_pos hfail, if_pos hfail]
    · rw [if_neg hfail, if_neg hfail, List.map_map, List.map_map]
      exact List.map_congr_left fun img _ => rfl
  · intro hexit hstdout
    have hfail : ¬(res.exitCode ≠ 0 ∨ res.stdout = "") := by
      push_neg
      exact ⟨hexit, hstdout⟩
    constructor
    · unfold pruneProjectImages
      rw [if_neg hfail, List.map_map]
      exact List.map_congr_left fun img _ => rfl
    · intro x hx y hy
      have hp := sortDesc_pairwise dateVal ((jsSplit '\n' res.stdout).map parseImageLine)
      rw [← List.take_append_drop 3
        (sortDesc dateVal ((jsSplit '\n' res.stdout).map parseImageLine))] at hp
      exact (List.pairwise_append.mp hp).2.2 x hx y hy

/-! ## Running-container discovery -/

/-- C10: `listRunningContainers` returns the empty list whenever the runtime
listing exits non-zero; every entry it does return carries a non-empty
`projectId` and a non-empty `buildId` (lines with fewer than three
whitespace-separated fields, or with an empty label value, are silently
dropped), and consequently `recoverLogStreams` only attaches log streams for
containers whose both management labels were parsed. -/
theorem listRunningContainers_spec (res : ExecResult) :
    (res.exitCode ≠ 0 → listRunningContainers res = [])
    ∧ (∀ c ∈ listRunningContainers res, c.projectId ≠ "" ∧ c.buildId ≠ "")
    ∧ ∀ pb ∈ recoverAttachList res, pb.1 ≠ "" ∧ pb.2 ≠ "" := by
  have hmain : ∀ c ∈ listRunningContainers res, c.projectId ≠ "" ∧ c.buildId ≠ "" := by
    intro c hc
    unfold listRunningContainers at hc
    by_cases he : res.exitCode ≠ 0
    · rw [if_pos he] at hc
      cases hc
    · rw [if_neg he] at hc
      obtain ⟨line, _, hf⟩ := List.mem_filterMap.mp hc
      unfold parseListedLine at hf
      split at hf
      · split at hf
        · injection hf with hf
          subst hf
          rename_i hne
          constructor
          · intro hc'
            exact hne.1 (congrArg String.data hc')
          · intro hc'
            exact hne.2 (congrArg String.data hc')
        · cases hf
      · cases hf
  refine ⟨?_, hmain, ?_⟩
  · intro he
    unfold listRunningContainers
    rw [if_pos he]
  · intro pb hpb
    obtain ⟨c, hc, hcpb⟩ := List.mem_map.mp hpb
    rw [← hcpb]
    exact hmain c hc

end DeployEngine
